import Mathlib

/-!
Verification of the transaction-summarizer pipeline
(`aws/lambda/summarizer/main.go`).

The development shallowly embeds the pipeline:
 * `processCSVFile` — the CSV validator (header check, per-row skip policy);
 * `insertTransactions` / `persist` — the atomic batch persister;
 * `getTransactionSummaryByEmail` — the per-account aggregation query,
   modelling the SQL (`GROUP BY DATE_TRUNC month`, `AVG` over `CASE` with
   sign tests, `SUM` of casts) over an explicit list of database records,
   with Postgres `NUMERIC` arithmetic modelled exactly by `ℚ`;
 * `collectSummaries` / `runFile` — the handler's orchestration.
-/

namespace Summarizer

/-- Numeric value of a list of decimal digit characters (most significant
first), as read left to right. -/
def natOfDigits (cs : List Char) : Nat :=
  cs.foldl (fun a c => 10 * a + (c.toNat - 48)) 0

/-- Split a character list at its decimal point: `none` when more than one
point occurs, otherwise the characters before and after the (optional)
point. -/
def splitDot : List Char → Option (List Char × List Char)
  | [] => some ([], [])
  | c :: rest =>
    if c = '.' then
      if rest.contains '.' then none else some ([], rest)
    else
      match splitDot rest with
      | none => none
      | some (a, b) => some (c :: a, b)

/-- Postgres `CAST(s AS NUMERIC)` on an unsigned literal: digits with an
optional single decimal point and at least one digit. -/
def parseUnsignedNumeric (cs : List Char) : Option ℚ :=
  match splitDot cs with
  | none => none
  | some (a, b) =>
    if a.all Char.isDigit && b.all Char.isDigit && (a ≠ [] ∨ b ≠ []) then
      some ((natOfDigits a : ℚ) + (natOfDigits b : ℚ) / (10 : ℚ) ^ b.length)
    else
      none

/-- Postgres `CAST(s AS NUMERIC)` on a (possibly signed) literal. -/
def parseNumericChars : List Char → Option ℚ
  | '+' :: rest => parseUnsignedNumeric rest
  | '-' :: rest => (parseUnsignedNumeric rest).map Neg.neg
  | cs => parseUnsignedNumeric cs

/-- Go `strconv.Atoi`: optional single sign followed by one or more
digits, spanning the whole string. -/
def atoi (s : String) : Option Int :=
  match s.data with
  | [] => none
  | '+' :: rest =>
    if rest ≠ [] ∧ rest.all Char.isDigit then some (natOfDigits rest : Int) else none
  | '-' :: rest =>
    if rest ≠ [] ∧ rest.all Char.isDigit then some (-(natOfDigits rest : Int)) else none
  | cs =>
    if cs.all Char.isDigit then some (natOfDigits cs : Int) else none

/-- One line yielded by the CSV reader: either a parsed field list or a
delimiter-level read error. -/
inductive CSVLine where
  | fields (record : List String)
  | readErr
deriving DecidableEq, Repr

/-- A CSV stream as the reader presents it: the first read (the header)
and the subsequent reads up to end of file. -/
structure CSVStream where
  header : CSVLine
  lines : List CSVLine
deriving DecidableEq, Repr

/-- Fatal header failures of `processCSVFile`. -/
inductive SchemaError where
  | headerRead
  | headerColumns (got : Nat)
deriving DecidableEq, Repr

/-- `processCSVFile` from the source: fail if the header cannot be read or
does not have exactly 4 columns; afterwards skip read errors and rows
whose field count is not 4, keeping the rest in order. -/
def processCSVFile (input : CSVStream) : Except SchemaError (List (List String)) :=
  match input.header with
  | .readErr => .error .headerRead
  | .fields h =>
    if h.length = 4 then
      .ok (input.lines.filterMap fun l =>
        match l with
        | .readErr => none
        | .fields r => if r.length = 4 then some r else none)
    else
      .error (.headerColumns h.length)

/-- A row of the `transacciones` table as inserted by the persister. -/
structure TxRecord where
  external_id : Int
  date : String
  transaction : String
  email : String
deriving DecidableEq, Repr

/-- Row-level errors of `insertTransactions`; the `Nat` is the 1-based row
number reported in the error message. -/
inductive InsertError where
  | invalidColumnCount (row : Nat) (got : Nat)
  | invalidExternalID (row : Nat)
deriving DecidableEq, Repr

/-- Adding an email to the `emailSet` Go map, modelled as an
insertion-ordered duplicate-free list. -/
def insertEmail (es : List String) (e : String) : List String :=
  if e ∈ es then es else es ++ [e]

/-- The loop body of `insertTransactions`: `i` is the 0-based index of the
first row still to process, `recs` the rows already inserted in the open
transaction, `emails` the emails seen so far. -/
def insertTransactionsAux (i : Nat) (rows : List (List String))
    (recs : List TxRecord) (emails : List String) :
    Except InsertError (List TxRecord × List String) :=
  match rows with
  | [] => .ok (recs, emails)
  | row :: rest =>
    match row with
    | [rid, rdate, rtr, remail] =>
      match atoi rid with
      | none => .error (.invalidExternalID (i + 1))
      | some eid =>
        insertTransactionsAux (i + 1) rest (recs ++ [⟨eid, rdate, rtr, remail⟩])
          (insertEmail emails remail)
    | _ => .error (.invalidColumnCount (i + 1) row.length)

/-- `insertTransactions` from the source: validate and insert each row
inside the transaction, collecting the distinct emails; stop at the first
row-level error. -/
def insertTransactions (rows : List (List String)) :
    Except InsertError (List TxRecord × List String) :=
  insertTransactionsAux 0 rows [] []

/-- The handler's begin/insert/commit-or-rollback step for one batch: on
error the store is unchanged (rollback); on success the inserted rows are
appended (commit) and the email set is returned. -/
def persist (db : List TxRecord) (rows : List (List String)) :
    List TxRecord × Except InsertError (List String) :=
  match insertTransactions rows with
  | .error e => (db, .error e)
  | .ok (recs, emails) => (db ++ recs, .ok emails)

/-! ## Aggregator: the summary query over the persisted store -/

/-- A calendar date as stored in the `date` column (`DATE`, no time). -/
structure Date where
  year : Int
  month : Nat
  day : Nat
deriving DecidableEq, Repr

/-- A persisted row of the transactions table as the aggregation query
sees it: a parsed date, the signed-amount string, and the account email. -/
structure DBRecord where
  external_id : Int
  date : Date
  transaction : String
  email : String
deriving DecidableEq, Repr

/-- `TO_CHAR(date, 'FMMonth')`: the English month name without padding. -/
def monthName (m : Nat) : String :=
  match m with
  | 1 => ("January")
  | 2 => ("February")
  | 3 => ("March")
  | 4 => ("April")
  | 5 => ("May")
  | 6 => ("June")
  | 7 => ("July")
  | 8 => ("August")
  | 9 => ("September")
  | 10 => ("October")
  | 11 => ("November")
  | 12 => ("December")
  | _ => ("")

/-- The grouping key of `DATE_TRUNC('month', date)`: the (year, month)
pair of the date. -/
def dateKey (d : Date) : Int × Nat := (d.year, d.month)

/-- Chronological (lexicographic) strict order on grouping keys, the
order `ORDER BY DATE_TRUNC('month', date)` sorts by. -/
def keyLt (a b : Int × Nat) : Prop := a.1 < b.1 ∨ (a.1 = b.1 ∧ a.2 < b.2)

instance (a b : Int × Nat) : Decidable (keyLt a b) := by unfold keyLt; infer_instance

/-- Insert a key into an ascending duplicate-free key list, keeping it
ascending and duplicate-free. -/
def insortKey (k : Int × Nat) : List (Int × Nat) → List (Int × Nat)
  | [] => [k]
  | j :: rest =>
    if k = j then j :: rest
    else if keyLt k j then k :: j :: rest
    else j :: insortKey k rest

/-- The distinct keys of a list, in ascending order: the semantics of
`GROUP BY` + `ORDER BY` on the truncated date. -/
def sortedKeys (ks : List (Int × Nat)) : List (Int × Nat) :=
  ks.foldl (fun acc k => insortKey k acc) []

/-- The rows of the store with the given account email (the `WHERE`
clause), in store order. -/
def accountRows (db : List DBRecord) (email : String) : List DBRecord :=
  db.filter fun r => r.email = email

/-- The distinct month keys of an account's rows, chronologically
ascending. -/
def groupKeys (db : List DBRecord) (email : String) : List (Int × Nat) :=
  sortedKeys ((accountRows db email).map fun r => dateKey r.date)

/-- One `GROUP BY` group: the account's rows whose date falls in the
given (year, month). -/
def groupRows (db : List DBRecord) (email : String) (k : Int × Nat) : List DBRecord :=
  (accountRows db email).filter fun r => dateKey r.date = k

/-- Characters removed by `TRIM` (ASCII whitespace). -/
def isSpaceChar (c : Char) : Bool :=
  c = ' ' || c = '\t' || c = '\n' || c = '\r'

/-- SQL `TRIM(s)`: the characters of `s` without leading and trailing
whitespace. -/
def trimChars (cs : List Char) : List Char :=
  ((cs.dropWhile isSpaceChar).reverse.dropWhile isSpaceChar).reverse

/-- First-character test used to model `LIKE '+%'` / `LIKE '-%'`. -/
def headIs (c : Char) : List Char → Bool
  | [] => false
  | d :: _ => d = c

/-- `CASE WHEN TRIM(t) LIKE '+%' THEN CAST(REPLACE(TRIM(t),'+','') AS
NUMERIC) ELSE NULL END`. The outer `Option` is a cast failure (aborting
the query); the inner one is SQL `NULL`. `REPLACE` removes every
occurrence of the sign character. -/
def creditExpr (t : String) : Option (Option ℚ) :=
  let s := trimChars t.data
  if headIs '+' s then
    (parseNumericChars (s.filter fun c => c ≠ '+')).map some
  else some none

/-- The debit `CASE` expression, analogous with `'-'`. -/
def debitExpr (t : String) : Option (Option ℚ) :=
  let s := trimChars t.data
  if headIs '-' s then
    (parseNumericChars (s.filter fun c => c ≠ '-')).map some
  else some none

/-- `CAST(TRIM(t) AS NUMERIC)` as summed for the month balance. -/
def balanceExpr (t : String) : Option ℚ :=
  parseNumericChars (trimChars t.data)

/-- SQL `AVG` over a column of nullable numerics: `NULL`s are ignored,
and the average of no values is `NULL`. -/
def sqlAvg (vs : List (Option ℚ)) : Option ℚ :=
  let xs := vs.filterMap id
  if xs.length = 0 then none else some (xs.sum / (xs.length : ℚ))

/-- SQL `SUM` over a column of (non-null) numerics: `NULL` on an empty
group, the sum otherwise. -/
def sqlSum (xs : List ℚ) : Option ℚ :=
  if xs.length = 0 then none else some xs.sum

/-- Evaluate a list of possibly-failing expressions, failing when any
fails (the semantics of a cast error inside a query). -/
def optList {α : Type} : List (Option α) → Option (List α)
  | [] => some []
  | none :: _ => none
  | some a :: rest => (optList rest).map fun l => a :: l

/-- One result row of the aggregation query, before the Go scan. -/
structure SQLMonthRow where
  month : String
  num_transactions : Nat
  avg_credit : Option ℚ
  avg_debit : Option ℚ
  balance : Option ℚ
deriving DecidableEq, Repr

/-- The aggregation query's output row for one month group. -/
def monthRowFor (rows : List DBRecord) (k : Int × Nat) : Option SQLMonthRow := do
  let credits ← optList (rows.map fun r => creditExpr r.transaction)
  let debits ← optList (rows.map fun r => debitExpr r.transaction)
  let balances ← optList (rows.map fun r => balanceExpr r.transaction)
  pure ⟨monthName k.2, rows.length, sqlAvg credits, sqlAvg debits, sqlSum balances⟩

/-- Failure of the aggregation read (`QueryError`): here, a numeric cast
failing on some stored amount string. -/
inductive QueryError where
  | castFailed
deriving DecidableEq, Repr

/-- Run the whole aggregation query for one account: one result row per
distinct (year, month) key, in chronological order. -/
def runQuery (db : List DBRecord) (email : String) :
    Except QueryError (List SQLMonthRow) :=
  match optList ((groupKeys db email).map fun k => monthRowFor (groupRows db email k) k) with
  | none => .error .castFailed
  | some rs => .ok rs

/-- `MonthlySummary` from the source: plain numbers, a SQL `NULL` average
having been materialized as the `float64` zero value. -/
structure MonthlySummary where
  month : String
  transactionCount : Nat
  averageCredit : ℚ
  averageDebit : ℚ
deriving DecidableEq, Repr

/-- `AccountSummary` from the source. -/
structure AccountSummary where
  email : String
  totalBalance : ℚ
  monthlySummaries : List MonthlySummary
deriving DecidableEq, Repr

/-- The Go scan of one query row: a null average stays at the zero value,
a non-null debit average is negated (`// debit is negative`). -/
def scanRow (r : SQLMonthRow) : MonthlySummary :=
  { month := r.month
    transactionCount := r.num_transactions
    averageCredit := match r.avg_credit with | some v => v | none => 0
    averageDebit := match r.avg_debit with | some v => -v | none => 0 }

/-- The balance contribution of one query row in the Go scan loop
(`if balance.Valid`): a null balance contributes nothing. -/
def rowBalance (r : SQLMonthRow) : ℚ :=
  match r.balance with | some v => v | none => 0

/-- `getTransactionSummaryByEmail` from the source: run the query, scan
each row into a `MonthlySummary`, and accumulate `totalBalance` from the
per-month balances. -/
def getTransactionSummaryByEmail (db : List DBRecord) (email : String) :
    Except QueryError AccountSummary :=
  match runQuery db email with
  | .error e => .error e
  | .ok rs =>
    .ok { email := email
          totalBalance := (rs.map rowBalance).sum
          monthlySummaries := rs.map scanRow }

/-- The handler's per-account loop: summarize each email, skipping (after
logging) the accounts whose summary failed. -/
def collectSummaries (db : List DBRecord) (emails : List String) :
    List AccountSummary :=
  match emails with
  | [] => []
  | e :: rest =>
    match getTransactionSummaryByEmail db e with
    | .error _ => collectSummaries db rest
    | .ok s => s :: collectSummaries db rest

/-- Errors surfaced by the handler's per-file pipeline. -/
inductive PipelineError where
  | schema (e : SchemaError)
  | insert (e : InsertError)
deriving DecidableEq, Repr

/-- The handler's pipeline for one file against the string-level store:
validate the CSV, then persist the valid rows in one transaction. The
first component is the store after the run. -/
def runFile (db : List TxRecord) (input : CSVStream) :
    List TxRecord × Except PipelineError (List String) :=
  match processCSVFile input with
  | .error e => (db, .error (.schema e))
  | .ok rows =>
    match persist db rows with
    | (db2, .error e) => (db2, .error (.insert e))
    | (db2, .ok emails) => (db2, .ok emails)

/-! ## Spec-side helpers used to state the claims -/

/-- The records a fully valid batch inserts, in batch order. -/
def committedRecords (rows : List (List String)) : List TxRecord :=
  rows.filterMap fun row =>
    match row with
    | [a, b, c, d] => (atoi a).map fun n => ⟨n, b, c, d⟩
    | _ => none

/-- The distinct emails of a batch, in first-seen order. -/
def emailsOf (rows : List (List String)) : List String :=
  rows.foldl (fun es row => insertEmail es (row.getD 3 default)) []

/-- The successfully read field lists of a stream's lines, in order. -/
def readRecords (lines : List CSVLine) : List (List String) :=
  lines.filterMap fun l =>
    match l with
    | .readErr => none
    | .fields r => some r

/-- A stored row counts as a credit when its trimmed amount string starts
with a plus sign (the query's first `CASE` condition). -/
def isCreditRow (r : DBRecord) : Bool := headIs '+' (trimChars r.transaction.data)

/-- A stored row counts as a debit when its trimmed amount string starts
with a minus sign (the query's second `CASE` condition). -/
def isDebitRow (r : DBRecord) : Bool := headIs '-' (trimChars r.transaction.data)

/-- The signed numeric value of a stored row's amount string, as the
balance column casts it (0 when the cast fails, which aborts the query
anyway). -/
def signedVal (r : DBRecord) : ℚ := (balanceExpr r.transaction).getD 0

/-! ## Concrete inputs for the witnesses and counterexamples -/

/-- The account email used by the concrete examples. -/
def exEmail : String := "u@x"

/-- The store of the worked example in the spec:
`[+30.00 Jan, -15.00 Jan, +20.00 Feb]` for one account. -/
def exampleDB : List DBRecord :=
  [⟨1, ⟨2024, 1, 5⟩, "+30.00", "u@x"⟩,
   ⟨2, ⟨2024, 1, 9⟩, "-15.00", "u@x"⟩,
   ⟨3, ⟨2024, 2, 3⟩, "+20.00", "u@x"⟩]

/-- A store whose only account record is one credit in January: its
January group has zero debit rows. -/
def creditOnlyDB : List DBRecord :=
  [⟨1, ⟨2024, 1, 10⟩, "+30.00", "u@x"⟩]

/-- A store whose only account record is an unsigned zero amount: zero
debit rows in January. -/
def zeroNoDebitDB : List DBRecord :=
  [⟨1, ⟨2024, 1, 10⟩, "0.00", "u@x"⟩]

/-- A store whose only account record is the debit `-0.00`: one debit row
in January, with debit average zero. -/
def zeroDebitDB : List DBRecord :=
  [⟨1, ⟨2024, 1, 10⟩, "-0.00", "u@x"⟩]

/-- A store with records in January of two different years. -/
def twoYearDB : List DBRecord :=
  [⟨1, ⟨2024, 1, 5⟩, "+10.00", "u@x"⟩,
   ⟨2, ⟨2023, 1, 7⟩, "+1.00", "u@x"⟩]

/-- A store containing one account whose amount string fails the numeric
cast, so that summarizing that account fails. -/
def mixedFailDB : List DBRecord :=
  [⟨1, ⟨2024, 1, 5⟩, "+10.00", "u@x"⟩,
   ⟨2, ⟨2024, 2, 7⟩, "oops", "bad@x"⟩]

/-- A valid two-row batch for the persister witnesses. -/
def wRows : List (List String) :=
  [["1", "2024-01-05", "+30.00", "u@x"], ["2", "2024-01-09", "-15.00", "v@x"]]

/-- A batch whose second row has an unparseable external id. -/
def wBadIdRows : List (List String) :=
  [["1", "2024-01-05", "+30.00", "u@x"], ["x2", "2024-01-09", "-15.00", "v@x"]]

/-- A batch whose second row has five fields. -/
def wBadColsRows : List (List String) :=
  [["1", "2024-01-05", "+30.00", "u@x"], ["2", "2024-01-09", "-15.00", "v@x", "zz"]]

/-- A pre-existing store for the persister witnesses. -/
def wStore : List TxRecord :=
  [⟨9, "2023-12-31", "+1.00", "w@x"⟩]

/-- A CSV stream with a three-column header. -/
def wBadHeader : CSVStream :=
  ⟨.fields [("id"), ("date"), ("email")],
   [.fields [("1"), ("2024-01-05"), ("+30.00"), ("u@x")]]⟩

/-- A CSV stream with a valid header, one valid row, one read error and
one two-field row. -/
def wGoodStream : CSVStream :=
  ⟨.fields [("id"), ("date"), ("transaction"), ("email")],
   [.fields [("1"), ("2024-01-05"), ("+30.00"), ("u@x")],
    .readErr,
    .fields [("bad"), ("row")],
    .fields [("2"), ("2024-02-03"), ("+20.00"), ("v@x")]]⟩

/-! ## IEEE binary64 (`float64`) rounding

The Go scan holds the scanned balances in `float64`
(`sql.NullFloat64`) and accumulates `totalBalance += balance.Float64`
with binary64 addition. The following models IEEE binary64
round-to-nearest-even on the normal range (no overflow or subnormals,
adequate for the magnitudes of these claims): a double is the rational
`m * 2^(e-52)` with `2^52 ≤ |m| < 2^53`. -/

/-- Structural base-2 logarithm (the first argument is fuel). -/
def log2Aux : Nat → Nat → Nat
  | 0, _ => 0
  | fuel + 1, n => if n ≥ 2 then log2Aux fuel (n / 2) + 1 else 0

/-- `⌊log₂ n⌋` for positive `n` (0 at 0). -/
def natLog2 (n : Nat) : Nat := log2Aux n n

/-- Structural power of two by squaring (the first argument is fuel). -/
def pow2Aux : Nat → Nat → Nat
  | 0, _ => 1
  | _, 0 => 1
  | fuel + 1, n =>
    let h := pow2Aux fuel (n / 2)
    if n % 2 = 0 then h * h else h * h * 2

/-- `2 ^ n` as a natural number. -/
def pow2 (n : Nat) : Nat := pow2Aux n n

/-- `⌊log₂ (p / q)⌋` for positive naturals `p`, `q`: the binade exponent
of the positive rational `p / q`. -/
def floorLog2Nat (p q : Nat) : ℤ :=
  let e0 : ℤ := (natLog2 p : ℤ) - (natLog2 q : ℤ)
  let lt : Bool :=
    if 0 ≤ e0 then p < q * pow2 e0.toNat else p * pow2 (-e0).toNat < q
  if lt then e0 - 1 else e0

/-- Round a rational to the nearest IEEE binary64 double
(round-to-nearest, ties to even), as a rational: scale the magnitude
into `[2^52, 2^53)`, round the 53-bit significand half-to-even, and
scale back. -/
def roundDouble (x : ℚ) : ℚ :=
  if x = 0 then 0
  else
    let p := x.num.natAbs
    let q := x.den
    let e : ℤ := floorLog2Nat p q
    let s : ℤ := 52 - e
    let bigN := p * pow2 s.toNat
    let bigD := q * pow2 (-s).toNat
    let n0 := bigN / bigD
    let r := bigN % bigD
    let n := if 2 * r < bigD then n0
             else if bigD < 2 * r then n0 + 1
             else if n0 % 2 = 0 then n0 else n0 + 1
    let m : Int := (n : Int) * (pow2 (e - 52).toNat : Nat)
    let dd : Nat := pow2 (52 - e).toNat
    if x < 0 then -(mkRat m dd) else mkRat m dd

/-- The `float64` value of `totalBalance` that the Go scan actually
returns: each month's exact `NUMERIC` balance is converted to a binary64
double by the driver and accumulated with binary64 addition
(`totalBalance += balance.Float64`); `none` when the query fails. -/
def totalBalanceFloat (db : List DBRecord) (email : String) : Option ℚ :=
  match runQuery db email with
  | .error _ => none
  | .ok rs =>
    some ((rs.map fun r => roundDouble (rowBalance r)).foldl
      (fun acc b => roundDouble (acc + b)) 0)

/-- The summary the worked example evaluates to. -/
def exampleSummary : AccountSummary :=
  ⟨("u@x"), 35, [⟨("January"), 2, 30, -15⟩, ⟨("February"), 1, 20, 0⟩]⟩

/-- The summary of the two-year store: two separate January entries, in
chronological order. -/
def twoYearSummary : AccountSummary :=
  ⟨("u@x"), 11, [⟨("January"), 1, 1, 0⟩, ⟨("January"), 1, 10, 0⟩]⟩

/-- A store with the credits `+0.10` in January and `+0.20` in February:
per-month subtotals that are not representable in binary64. -/
def roundDB : List DBRecord :=
  [⟨1, ⟨2024, 1, 5⟩, "+0.10", "u@x"⟩,
   ⟨2, ⟨2024, 2, 7⟩, "+0.20", "u@x"⟩]

/-! ## Shared lemmas -/

instance {ε α : Type} [DecidableEq ε] [DecidableEq α] : DecidableEq (Except ε α)
  | .error x, .error y =>
    match decEq x y with
    | isTrue h => isTrue (congrArg Except.error h)
    | isFalse h => isFalse fun hc => h (Except.error.inj hc)
  | .error _, .ok _ => isFalse fun hc => Except.noConfusion hc
  | .ok _, .error _ => isFalse fun hc => Except.noConfusion hc
  | .ok x, .ok y =>
    match decEq x y with
    | isTrue h => isTrue (congrArg Except.ok h)
    | isFalse h => isFalse fun hc => h (Except.ok.inj hc)

/-- `Except.toOption` hits `some` exactly on `ok`. -/
theorem except_toOption_eq_some {ε α : Type} (x : Except ε α) (a : α) :
    x.toOption = some a ↔ x = .ok a := by
  cases x <;> simp [Except.toOption]

/-- A list of length 4 is a four-element list. -/
theorem length_eq_four {α : Type} (row : List α) (h : row.length = 4) :
    ∃ a b c d, row = [a, b, c, d] := by
  match row with
  | [a, b, c, d] => exact ⟨a, b, c, d, rfl⟩
  | [] => simp at h
  | [_] => simp at h
  | [_, _] => simp at h
  | [_, _, _] => simp at h
  | _ :: _ :: _ :: _ :: _ :: _ =>
    exfalso
    simp [List.length_cons] at h

/-- A fully valid batch drives the insert loop to success, appending the
batch's records and collecting its emails. -/
theorem insertTransactionsAux_ok (rows : List (List String)) :
    ∀ (i : Nat) (recs : List TxRecord) (emails : List String),
      (∀ row ∈ rows, ∃ a b c d n, row = [a, b, c, d] ∧ atoi a = some n) →
      insertTransactionsAux i rows recs emails =
        .ok (recs ++ committedRecords rows,
             rows.foldl (fun es row => insertEmail es (row.getD 3 default)) emails) := by
  induction rows with
  | nil =>
    intro i recs emails _
    simp [insertTransactionsAux, committedRecords]
  | cons row rest ih =>
    intro i recs emails h
    obtain ⟨a, b, c, d, n, hrow, hn⟩ := h row (by simp)
    subst hrow
    simp only [insertTransactionsAux, hn]
    rw [ih (i + 1) _ _ (fun r hr => h r (by simp [hr]))]
    congr 1
    rw [committedRecords, committedRecords]
    simp [hn]

/-- If some earlier rows are valid and row `j` (0-based) has an
unparseable id, the insert loop stops with `invalidExternalID` at the
1-based row number. -/
theorem insertTransactionsAux_badId (rows : List (List String)) :
    ∀ (i j : Nat) (recs : List TxRecord) (emails : List String),
      j < rows.length →
      (∀ x, x < j → ∃ a b c d n, rows.getD x [] = [a, b, c, d] ∧ atoi a = some n) →
      (∀ row ∈ rows, row.length = 4) →
      atoi ((rows.getD j []).headD default) = none →
      insertTransactionsAux i rows recs emails =
        .error (.invalidExternalID (i + j + 1)) := by
  induction rows with
  | nil => intro i j recs emails hj _ _ _; simp at hj
  | cons row rest ih =>
    intro i j recs emails hj hpre hlen hbad
    obtain ⟨a, b, c, d, hrow⟩ := length_eq_four row (hlen row (by simp))
    subst hrow
    cases j with
    | zero =>
      simp only [List.getD_cons_zero, List.headD_cons] at hbad
      simp [insertTransactionsAux, hbad]
    | succ j =>
      obtain ⟨a0, b0, c0, d0, n0, hrow0, hn0⟩ := hpre 0 (Nat.succ_pos j)
      rw [List.getD_cons_zero] at hrow0
      simp only [List.cons.injEq, and_true] at hrow0
      obtain ⟨ha, -, -, -⟩ := hrow0
      subst ha
      simp only [insertTransactionsAux, hn0]
      have harith : i + 1 + j + 1 = i + (j + 1) + 1 := by omega
      rw [ih (i + 1) j _ _ (Nat.lt_of_succ_lt_succ hj)
        (fun x hx => by simpa [List.getD_cons_succ] using hpre (x + 1) (Nat.succ_lt_succ hx))
        (fun r hr => hlen r (by simp [hr]))
        (by simpa [List.getD_cons_succ] using hbad), harith]

/-- If some earlier rows are valid and row `j` (0-based) does not have 4
fields, the insert loop stops with `invalidColumnCount` at the 1-based
row number, before inserting that row. -/
theorem insertTransactionsAux_badCols (rows : List (List String)) :
    ∀ (i j : Nat) (recs : List TxRecord) (emails : List String),
      j < rows.length →
      (∀ x, x < j → ∃ a b c d n, rows.getD x [] = [a, b, c, d] ∧ atoi a = some n) →
      (rows.getD j []).length ≠ 4 →
      insertTransactionsAux i rows recs emails =
        .error (.invalidColumnCount (i + j + 1) (rows.getD j []).length) := by
  induction rows with
  | nil => intro i j recs emails hj _ _; simp at hj
  | cons row rest ih =>
    intro i j recs emails hj hpre hbad
    cases j with
    | zero =>
      rw [List.getD_cons_zero] at hbad ⊢
      match row, hbad with
      | [], _ => simp [insertTransactionsAux]
      | [_], _ => simp [insertTransactionsAux]
      | [_, _], _ => simp [insertTransactionsAux]
      | [_, _, _], _ => simp [insertTransactionsAux]
      | [_, _, _, _], hbad => simp at hbad
      | _ :: _ :: _ :: _ :: _ :: _, _ => simp [insertTransactionsAux]
    | succ j =>
      obtain ⟨a0, b0, c0, d0, n0, hrow0, hn0⟩ := hpre 0 (Nat.succ_pos j)
      rw [List.getD_cons_zero] at hrow0
      subst hrow0
      simp only [insertTransactionsAux, hn0]
      have harith : i + 1 + j + 1 = i + (j + 1) + 1 := by omega
      rw [ih (i + 1) j _ _ (Nat.lt_of_succ_lt_succ hj)
        (fun x hx => by simpa [List.getD_cons_succ] using hpre (x + 1) (Nat.succ_lt_succ hx))
        (by simpa [List.getD_cons_succ] using hbad), harith]
      simp [List.getD_cons_succ]

/-- A batch containing any row without exactly 4 fields can never drive
the insert loop to success. -/
theorem insertTransactionsAux_badCols_isError (rows : List (List String)) :
    ∀ (i : Nat) (recs : List TxRecord) (emails : List String),
      (∃ row ∈ rows, row.length ≠ 4) →
      ∃ e, insertTransactionsAux i rows recs emails = .error e := by
  induction rows with
  | nil =>
    rintro i recs emails ⟨row, hmem, -⟩
    simp at hmem
  | cons row rest ih =>
    rintro i recs emails ⟨bad, hmem, hbadlen⟩
    rcases List.mem_cons.mp hmem with rfl | hmem'
    · match bad, hbadlen with
      | [], _ => exact ⟨_, rfl⟩
      | [_], _ => exact ⟨_, rfl⟩
      | [_, _], _ => exact ⟨_, rfl⟩
      | [_, _, _], _ => exact ⟨_, rfl⟩
      | [_, _, _, _], hbadlen => simp at hbadlen
      | _ :: _ :: _ :: _ :: _ :: _, _ => exact ⟨_, rfl⟩
    · match row with
      | [a, b, c, d] =>
        cases hn : atoi a with
        | none =>
          exact ⟨.invalidExternalID (i + 1), by rw [insertTransactionsAux.eq_def]; simp [hn]⟩
        | some n =>
          obtain ⟨e, he⟩ := ih (i + 1)
            (recs ++ [⟨n, b, c, d⟩]) (insertEmail emails d) ⟨bad, hmem', hbadlen⟩
          exact ⟨e, by rw [insertTransactionsAux.eq_def]; simpa [hn] using he⟩
      | [] => exact ⟨_, rfl⟩
      | [_] => exact ⟨_, rfl⟩
      | [_, _] => exact ⟨_, rfl⟩
      | [_, _, _] => exact ⟨_, rfl⟩
      | _ :: _ :: _ :: _ :: _ :: _ => exact ⟨_, rfl⟩

/-- Reading a parsed line prepends its fields to the read records. -/
theorem readRecords_cons_fields (r : List String) (rest : List CSVLine) :
    readRecords (CSVLine.fields r :: rest) = r :: readRecords rest := rfl

/-- A read error contributes nothing to the read records. -/
theorem readRecords_cons_readErr (rest : List CSVLine) :
    readRecords (CSVLine.readErr :: rest) = readRecords rest := rfl

/-- The validator's row loop keeps exactly the 4-field rows among the
successfully read lines, in order. -/
theorem filterMap_keep_eq (lines : List CSVLine) :
    (lines.filterMap fun l =>
      match l with
      | CSVLine.readErr => none
      | CSVLine.fields r => if r.length = 4 then some r else none) =
    (readRecords lines).filter fun r => r.length = 4 := by
  induction lines with
  | nil => rfl
  | cons l rest ih =>
    cases l with
    | readErr =>
      simpa [List.filterMap_cons, readRecords_cons_readErr] using ih
    | fields r =>
      rw [List.filterMap_cons, readRecords_cons_fields, List.filter_cons]
      by_cases hr : r.length = 4
      · simp [hr, ih]
      · simp [hr, ih]

/-- With a well-formed 4-column header, `processCSVFile` succeeds and
returns the in-order 4-field rows of the readable lines. -/
theorem processCSVFile_ok (input : CSVStream) (hs : List String)
    (hhdr : input.header = .fields hs) (hlen : hs.length = 4) :
    processCSVFile input =
      .ok ((readRecords input.lines).filter fun r => r.length = 4) := by
  rw [processCSVFile, hhdr]
  simp [hlen, filterMap_keep_eq]

/-- Committing a valid head row prepends its record. -/
theorem committedRecords_cons_ok (a b c d : String) (n : Int)
    (rows : List (List String)) (hn : atoi a = some n) :
    committedRecords ([a, b, c, d] :: rows) =
      ⟨n, b, c, d⟩ :: committedRecords rows := by
  rw [committedRecords, List.filterMap_cons]
  simp [hn, committedRecords]

/-- Success of the insert loop determines the inserted records: the
accumulated list extended with the batch's committed records. -/
theorem insertTransactionsAux_ok_inv (rows : List (List String)) :
    ∀ (i : Nat) (recs : List TxRecord) (emails : List String)
      (recs2 : List TxRecord) (emails2 : List String),
      insertTransactionsAux i rows recs emails = .ok (recs2, emails2) →
      recs2 = recs ++ committedRecords rows := by
  induction rows with
  | nil =>
    intro i recs emails recs2 emails2 h
    rw [insertTransactionsAux] at h
    cases h
    simp [committedRecords]
  | cons row rest ih =>
    intro i recs emails recs2 emails2 h
    match row, h with
    | [a, b, c, d], h =>
      cases hn : atoi a with
      | none => rw [insertTransactionsAux.eq_def] at h; simp [hn] at h
      | some n =>
        rw [insertTransactionsAux.eq_def] at h
        simp only [hn] at h
        have := ih (i + 1) (recs ++ [⟨n, b, c, d⟩]) (insertEmail emails d) recs2 emails2 h
        rw [this, committedRecords_cons_ok a b c d n rest hn]
        simp
    | [], h => rw [insertTransactionsAux.eq_def] at h; simp at h
    | [_], h => rw [insertTransactionsAux.eq_def] at h; simp at h
    | [_, _], h => rw [insertTransactionsAux.eq_def] at h; simp at h
    | [_, _, _], h => rw [insertTransactionsAux.eq_def] at h; simp at h
    | _ :: _ :: _ :: _ :: _ :: _, h => rw [insertTransactionsAux.eq_def] at h; simp at h

/-- A 4-field batch row with a parseable id contributes its record to the
committed records. -/
theorem mem_committedRecords (rows : List (List String)) (a b c d : String)
    (n : Int) (hmem : [a, b, c, d] ∈ rows) (hn : atoi a = some n) :
    (⟨n, b, c, d⟩ : TxRecord) ∈ committedRecords rows := by
  rw [committedRecords]
  exact List.mem_filterMap.mpr ⟨[a, b, c, d], hmem, by simp [hn]⟩

/-- Every committed record comes from a 4-field batch row with a
parseable id. -/
theorem committedRecords_mem_inv (rows : List (List String)) (rec : TxRecord)
    (h : rec ∈ committedRecords rows) :
    ∃ a b c d, [a, b, c, d] ∈ rows ∧ atoi a = some rec.external_id ∧
      b = rec.date ∧ c = rec.transaction ∧ d = rec.email := by
  rw [committedRecords] at h
  obtain ⟨row, hmem, hrow⟩ := List.mem_filterMap.mp h
  match row, hrow with
  | [a, b, c, d], hrow =>
    simp only [Option.map_eq_some'] at hrow
    obtain ⟨n, hn, hrec⟩ := hrow
    refine ⟨a, b, c, d, hmem, ?_, ?_, ?_, ?_⟩ <;> rw [← hrec]
    simpa using hn
  | [], hrow => simp at hrow
  | [_], hrow => simp at hrow
  | [_, _], hrow => simp at hrow
  | [_, _, _], hrow => simp at hrow
  | _ :: _ :: _ :: _ :: _ :: _, hrow => simp at hrow

/-- A field list is among the read records exactly when the stream has a
successfully read line with those fields. -/
theorem mem_readRecords_iff (lines : List CSVLine) (r : List String) :
    r ∈ readRecords lines ↔ CSVLine.fields r ∈ lines := by
  rw [readRecords]
  constructor
  · intro h
    obtain ⟨l, hl, hlr⟩ := List.mem_filterMap.mp h
    match l, hlr with
    | .fields r0, hlr =>
      cases hlr
      exact hl
    | .readErr, hlr => simp at hlr
  · intro h
    exact List.mem_filterMap.mpr ⟨.fields r, h, rfl⟩

/-- A successful run splits into a successful validation and a successful
persist of the validated rows. -/
theorem runFile_ok_inv (db : List TxRecord) (input : CSVStream)
    (db2 : List TxRecord) (emails : List String)
    (h : runFile db input = (db2, .ok emails)) :
    ∃ rows, processCSVFile input = .ok rows ∧
      persist db rows = (db2, .ok emails) := by
  rw [runFile] at h
  split at h
  · simp at h
  · rename_i rows heq
    split at h
    · simp at h
    · rename_i db3 ems heq2
      simp only [Prod.mk.injEq, Except.ok.injEq] at h
      obtain ⟨h1, h2⟩ := h
      exact ⟨rows, heq, by rw [heq2, h1, h2]⟩

/-- Success of `persist` determines the new store. -/
theorem persist_ok_inv (db : List TxRecord) (rows : List (List String))
    (db2 : List TxRecord) (emails : List String)
    (h : persist db rows = (db2, .ok emails)) :
    db2 = db ++ committedRecords rows := by
  rw [persist] at h
  split at h
  · simp at h
  · rename_i p recs ems heq
    simp only [Prod.mk.injEq, Except.ok.injEq] at h
    obtain ⟨h1, -⟩ := h
    rw [← h1, insertTransactionsAux_ok_inv rows 0 [] [] recs ems heq]
    simp

/-! ### Ordering of the grouping keys -/

/-- `keyLt` is transitive. -/
theorem keyLt_trans {a b c : Int × Nat} (hab : keyLt a b) (hbc : keyLt b c) :
    keyLt a c := by
  rcases hab with h1 | ⟨h1, h2⟩ <;> rcases hbc with h3 | ⟨h3, h4⟩ <;>
    rw [keyLt] at * <;> omega

/-- `keyLt` is irreflexive, so related keys differ. -/
theorem keyLt_ne {a b : Int × Nat} (h : keyLt a b) : a ≠ b := by
  rcases h with h | ⟨h1, h2⟩ <;> rintro rfl <;> omega

/-- Keys are totally ordered by `keyLt` up to equality. -/
theorem keyLt_of_not_keyLt {a b : Int × Nat} (hne : a ≠ b) (h : ¬keyLt a b) :
    keyLt b a := by
  rcases a with ⟨ay, am⟩
  rcases b with ⟨by2, bm⟩
  rw [keyLt] at h ⊢
  simp only [ne_eq, Prod.mk.injEq, not_and] at hne
  dsimp only at h ⊢
  omega

/-- Membership after inserting a key. -/
theorem mem_insortKey (a k : Int × Nat) (l : List (Int × Nat)) :
    a ∈ insortKey k l ↔ a = k ∨ a ∈ l := by
  induction l with
  | nil => simp [insortKey]
  | cons j rest ih =>
    rw [insortKey]
    by_cases hkj : k = j
    · subst hkj
      simp only [if_pos rfl]
      constructor
      · exact fun h => Or.inr h
      · rintro (rfl | h)
        · simp
        · exact h
    · rw [if_neg hkj]
      by_cases hlt : keyLt k j
      · simp [if_pos hlt]
      · rw [if_neg hlt]
        simp only [List.mem_cons, ih]
        tauto

/-- Inserting into an ascending duplicate-free list keeps it so. -/
theorem pairwise_insortKey (k : Int × Nat) (l : List (Int × Nat))
    (h : l.Pairwise keyLt) : (insortKey k l).Pairwise keyLt := by
  induction l with
  | nil => simp [insortKey]
  | cons j rest ih =>
    rw [insortKey]
    obtain ⟨hj, hrest⟩ := List.pairwise_cons.mp h
    by_cases hkj : k = j
    · rw [if_pos hkj]
      exact h
    · rw [if_neg hkj]
      by_cases hlt : keyLt k j
      · rw [if_pos hlt]
        refine List.pairwise_cons.mpr ⟨?_, h⟩
        intro x hx
        rcases List.mem_cons.mp hx with rfl | hx'
        · exact hlt
        · exact keyLt_trans hlt (hj x hx')
      · rw [if_neg hlt]
        refine List.pairwise_cons.mpr ⟨?_, ih hrest⟩
        intro x hx
        rcases (mem_insortKey x k rest).mp hx with rfl | hx'
        · exact keyLt_of_not_keyLt hkj hlt
        · exact hj x hx'

/-- Membership in the fold of insertions. -/
theorem mem_foldl_insort (ks : List (Int × Nat)) :
    ∀ (acc : List (Int × Nat)) (a : Int × Nat),
      a ∈ ks.foldl (fun acc k => insortKey k acc) acc ↔ a ∈ acc ∨ a ∈ ks := by
  induction ks with
  | nil => intro acc a; simp
  | cons k rest ih =>
    intro acc a
    rw [List.foldl_cons, ih (insortKey k acc) a, mem_insortKey]
    simp only [List.mem_cons]
    tauto

/-- The fold of insertions preserves ascending order. -/
theorem pairwise_foldl_insort (ks : List (Int × Nat)) :
    ∀ acc : List (Int × Nat), acc.Pairwise keyLt →
      (ks.foldl (fun acc k => insortKey k acc) acc).Pairwise keyLt := by
  induction ks with
  | nil => intro acc h; exact h
  | cons k rest ih =>
    intro acc h
    rw [List.foldl_cons]
    exact ih (insortKey k acc) (pairwise_insortKey k acc h)

/-- The sorted distinct keys have exactly the members of the input. -/
theorem mem_sortedKeys (ks : List (Int × Nat)) (a : Int × Nat) :
    a ∈ sortedKeys ks ↔ a ∈ ks := by
  rw [sortedKeys, mem_foldl_insort]
  simp

/-- The sorted distinct keys are strictly ascending. -/
theorem sortedKeys_pairwise (ks : List (Int × Nat)) :
    (sortedKeys ks).Pairwise keyLt :=
  pairwise_foldl_insort ks [] (by simp)

/-- The sorted distinct keys contain no duplicates. -/
theorem sortedKeys_nodup (ks : List (Int × Nat)) : (sortedKeys ks).Nodup :=
  (sortedKeys_pairwise ks).imp fun h => keyLt_ne h

/-! ### Successful queries as pointwise facts -/

/-- A successful `optList` over a mapped list relates inputs and outputs
pointwise. -/
theorem optList_eq_some_forall2 {α β : Type} (f : α → Option β) :
    ∀ (l : List α) (xs : List β), optList (l.map f) = some xs →
      List.Forall₂ (fun a b => f a = some b) l xs := by
  intro l
  induction l with
  | nil =>
    intro xs h
    rw [List.map_nil, optList] at h
    cases h
    exact .nil
  | cons a rest ih =>
    intro xs h
    rw [List.map_cons] at h
    cases hfa : f a with
    | none => rw [optList.eq_def, hfa] at h; simp at h
    | some b =>
      rw [optList.eq_def, hfa] at h
      simp only [Option.map_eq_some'] at h
      obtain ⟨ys, hys, hxs⟩ := h
      rw [← hxs]
      exact .cons hfa (ih ys hys)

/-- From the pointwise relation, outputs are the mapped defaults and every
input succeeds. -/
theorem forall2_some_map {α β : Type} (f : α → Option β) (d : β) :
    ∀ {l : List α} {xs : List β},
      List.Forall₂ (fun a b => f a = some b) l xs →
      xs = l.map (fun a => (f a).getD d) ∧ ∀ a ∈ l, (f a).isSome := by
  intro l xs h
  induction h with
  | nil => exact ⟨rfl, by simp⟩
  | cons hab _ ih =>
    rename_i a b l2 xs2
    refine ⟨?_, ?_⟩
    · rw [List.map_cons, ← ih.1, hab]
      simp
    · intro x hx
      rcases List.mem_cons.mp hx with rfl | hx'
      · simp [hab]
      · exact ih.2 x hx'

/-- Pointwise facts transfer along a map on the right-hand list. -/
theorem forall2_map_right {α β γ : Type} (R : α → γ → Prop) (f : β → γ) :
    ∀ {l : List α} {l2 : List β}, List.Forall₂ (fun a b => R a (f b)) l l2 →
      List.Forall₂ R l (l2.map f) := by
  intro l l2 h
  induction h with
  | nil => exact .nil
  | cons hab _ ih => exact .cons hab ih

/-- Mapped lists agree along a pointwise relation. -/
theorem forall2_map_eq {α β γ : Type} (g : β → γ) (gk : α → γ) :
    ∀ {keys : List α} {rs : List β},
      List.Forall₂ (fun k r => g r = gk k) keys rs →
      rs.map g = keys.map gk := by
  intro keys rs h
  induction h with
  | nil => rfl
  | cons hab _ ih => simp [hab, ih]

/-- Sums agree along a pointwise relation. -/
theorem forall2_sum_eq {α β : Type} (g : β → ℚ) (gk : α → ℚ) :
    ∀ {keys : List α} {rs : List β},
      List.Forall₂ (fun k r => g r = gk k) keys rs →
      (rs.map g).sum = (keys.map gk).sum := by
  intro keys rs h
  induction h with
  | nil => rfl
  | cons hab _ ih =>
    rw [List.map_cons, List.map_cons, List.sum_cons, List.sum_cons, hab, ih]

/-! ### Characters of a parsed numeric literal -/

/-- `splitDot` decomposes its input around the optional decimal point. -/
theorem splitDot_eq (cs : List Char) :
    ∀ a b, splitDot cs = some (a, b) → cs = a ++ b ∨ cs = a ++ '.' :: b := by
  induction cs with
  | nil =>
    intro a b h
    rw [splitDot] at h
    cases h
    simp
  | cons c rest ih =>
    intro a b h
    rw [splitDot] at h
    by_cases hc : c = '.'
    · rw [if_pos hc] at h
      by_cases hdot : rest.contains '.'
      · rw [if_pos hdot] at h; cases h
      · rw [if_neg hdot] at h
        cases h
        subst hc
        right
        simp
    · rw [if_neg hc] at h
      cases hrest : splitDot rest with
      | none => rw [hrest] at h; cases h
      | some p =>
        rcases p with ⟨a2, b2⟩
        rw [hrest] at h
        simp only [Option.some.injEq, Prod.mk.injEq] at h
        obtain ⟨ha, hb⟩ := h
        subst ha
        subst hb
        rcases ih a2 b2 hrest with h1 | h1 <;> rw [h1] <;> simp

/-- Every character of a successfully parsed unsigned numeric literal is
a digit or the decimal point. -/
theorem parseUnsignedNumeric_chars (cs : List Char) (v : ℚ)
    (h : parseUnsignedNumeric cs = some v) :
    ∀ c ∈ cs, c.isDigit = true ∨ c = '.' := by
  rw [parseUnsignedNumeric] at h
  cases hsd : splitDot cs with
  | none => rw [hsd] at h; exact absurd h (by simp)
  | some p =>
    rcases p with ⟨a, b⟩
    rw [hsd] at h
    dsimp only at h
    split at h
    · rename_i hcond
      simp only [Bool.and_eq_true, List.all_eq_true, decide_eq_true_eq] at hcond
      obtain ⟨⟨hda, hdb⟩, -⟩ := hcond
      intro c hc
      rcases splitDot_eq cs a b hsd with h1 | h1 <;> rw [h1] at hc
      · rcases List.mem_append.mp hc with hm | hm
        · exact Or.inl (hda c hm)
        · exact Or.inl (hdb c hm)
      · rcases List.mem_append.mp hc with hm | hm
        · exact Or.inl (hda c hm)
        · rcases List.mem_cons.mp hm with rfl | hm'
          · exact Or.inr rfl
          · exact Or.inl (hdb c hm')
    · exact absurd h (by simp)

/-- A parsed unsigned literal contains no sign character, so removing one
with `REPLACE` leaves it unchanged. -/
theorem no_sign_of_parseUnsigned (cs : List Char) (v : ℚ)
    (h : parseUnsignedNumeric cs = some v) (sign : Char)
    (hsign : sign = '+' ∨ sign = '-') :
    (cs.filter fun c => c ≠ sign) = cs := by
  rw [List.filter_eq_self]
  intro c hc
  simp only [ne_eq, decide_eq_true_eq]
  rcases parseUnsignedNumeric_chars cs v h c hc with hd | hd
  · rintro rfl
    rcases hsign with rfl | rfl <;> exact absurd hd (by decide)
  · subst hd
    rcases hsign with rfl | rfl <;> decide

/-- A sign-free literal parses the same under the signed parser. -/
theorem parseNumericChars_of_unsigned (cs : List Char) (v : ℚ)
    (h : parseUnsignedNumeric cs = some v) : parseNumericChars cs = some v := by
  match cs with
  | [] => simp [parseUnsignedNumeric, splitDot] at h
  | c :: rest =>
    have hc := parseUnsignedNumeric_chars _ _ h c (by simp)
    have hplus : c ≠ '+' := by
      rintro rfl
      rcases hc with hd | hd
      · exact absurd hd (by decide)
      · exact absurd hd (by decide)
    have hminus : c ≠ '-' := by
      rintro rfl
      rcases hc with hd | hd
      · exact absurd hd (by decide)
      · exact absurd hd (by decide)
    rw [parseNumericChars.eq_def]
    split
    · rename_i heq
      exact absurd (List.head_eq_of_cons_eq heq.symm).symm hplus
    · rename_i heq
      exact absurd (List.head_eq_of_cons_eq heq.symm).symm hminus
    · exact h

/-! ### Values of the CASE expressions -/

/-- On a credit row whose balance cast succeeds with value `v`, the credit
`CASE` expression yields exactly `v` (the `REPLACE` strips only the
leading sign). -/
theorem creditExpr_val (t : String) (v : ℚ)
    (hc : headIs '+' (trimChars t.data) = true)
    (hb : balanceExpr t = some v) :
    creditExpr t = some (some v) := by
  rw [balanceExpr] at hb
  obtain ⟨rest, hrest⟩ : ∃ rest, trimChars t.data = '+' :: rest := by
    cases htc : trimChars t.data with
    | nil => rw [htc, headIs] at hc; cases hc
    | cons c cs =>
      rw [htc, headIs] at hc
      simp only [decide_eq_true_eq] at hc
      subst hc
      exact ⟨cs, rfl⟩
  rw [hrest, parseNumericChars] at hb
  have hfil : (('+' :: rest).filter fun c => c ≠ '+') = rest := by
    rw [List.filter_cons, if_neg (by decide)]
    exact no_sign_of_parseUnsigned rest v hb '+' (Or.inl rfl)
  rw [creditExpr]
  rw [hrest, hfil, parseNumericChars_of_unsigned rest v hb]
  simp [headIs]

/-- On a debit row whose balance cast succeeds with value `v` (which is
`-u` for the stored magnitude `u`), the debit `CASE` expression yields
the magnitude `-v`. -/
theorem debitExpr_val (t : String) (v : ℚ)
    (hd : headIs '-' (trimChars t.data) = true)
    (hb : balanceExpr t = some v) :
    debitExpr t = some (some (-v)) := by
  rw [balanceExpr] at hb
  obtain ⟨rest, hrest⟩ : ∃ rest, trimChars t.data = '-' :: rest := by
    cases htc : trimChars t.data with
    | nil => rw [htc, headIs] at hd; cases hd
    | cons c cs =>
      rw [htc, headIs] at hd
      simp only [decide_eq_true_eq] at hd
      subst hd
      exact ⟨cs, rfl⟩
  rw [hrest, parseNumericChars] at hb
  simp only [Option.map_eq_some'] at hb
  obtain ⟨u, hu, huv⟩ := hb
  have hneg : u = -v := by rw [← huv]; ring
  have hfil : (('-' :: rest).filter fun c => c ≠ '-') = rest := by
    rw [List.filter_cons, if_neg (by decide)]
    exact no_sign_of_parseUnsigned rest u hu '-' (Or.inr rfl)
  rw [debitExpr]
  rw [hrest, hfil, parseNumericChars_of_unsigned rest u hu, hneg]
  simp [headIs]

/-- On a non-credit row the credit `CASE` expression is SQL `NULL`. -/
theorem creditExpr_none (t : String)
    (hc : headIs '+' (trimChars t.data) = false) :
    creditExpr t = some none := by
  rw [creditExpr, hc]
  rfl

/-- On a non-debit row the debit `CASE` expression is SQL `NULL`. -/
theorem debitExpr_none (t : String)
    (hd : headIs '-' (trimChars t.data) = false) :
    debitExpr t = some none := by
  rw [debitExpr, hd]
  rfl

/-- The credit column of a group, with `NULL`s dropped as `AVG` does,
is the signed values of the group's credit rows. -/
theorem credit_column (g : List DBRecord)
    (hok : ∀ r ∈ g, (balanceExpr r.transaction).isSome) :
    ((g.map fun r => (creditExpr r.transaction).getD none).filterMap id) =
      (g.filter isCreditRow).map signedVal := by
  induction g with
  | nil => rfl
  | cons r rest ih =>
    obtain ⟨v, hv⟩ := Option.isSome_iff_exists.mp (hok r (by simp))
    have ihr := ih fun x hx => hok x (by simp [hx])
    rw [List.map_cons, List.filterMap_cons]
    cases hc : isCreditRow r with
    | true =>
      rw [isCreditRow] at hc
      rw [creditExpr_val r.transaction v hc hv]
      rw [List.filter_cons_of_pos (by rw [isCreditRow]; exact hc), List.map_cons]
      simp only [Option.getD_some, id_eq]
      rw [ihr]
      have : signedVal r = v := by rw [signedVal, hv]; rfl
      rw [this]
    | false =>
      rw [isCreditRow] at hc
      rw [creditExpr_none r.transaction hc]
      rw [List.filter_cons_of_neg (by rw [isCreditRow]; simp [hc])]
      simpa using ihr

/-- The debit column of a group, with `NULL`s dropped, is the negation of
the signed values of the group's debit rows (the stored magnitudes). -/
theorem debit_column (g : List DBRecord)
    (hok : ∀ r ∈ g, (balanceExpr r.transaction).isSome) :
    ((g.map fun r => (debitExpr r.transaction).getD none).filterMap id) =
      (g.filter isDebitRow).map fun r => -(signedVal r) := by
  induction g with
  | nil => rfl
  | cons r rest ih =>
    obtain ⟨v, hv⟩ := Option.isSome_iff_exists.mp (hok r (by simp))
    have ihr := ih fun x hx => hok x (by simp [hx])
    rw [List.map_cons, List.filterMap_cons]
    cases hd : isDebitRow r with
    | true =>
      rw [isDebitRow] at hd
      rw [debitExpr_val r.transaction v hd hv]
      rw [List.filter_cons_of_pos (by rw [isDebitRow]; exact hd), List.map_cons]
      simp only [Option.getD_some, id_eq]
      rw [ihr]
      have : signedVal r = v := by rw [signedVal, hv]; rfl
      rw [this]
    | false =>
      rw [isDebitRow] at hd
      rw [debitExpr_none r.transaction hd]
      rw [List.filter_cons_of_neg (by rw [isDebitRow]; simp [hd])]
      simpa using ihr

/-! ### Inversion of a successful query -/

/-- `sqlAvg` of a column whose non-null part is empty. -/
theorem sqlAvg_eq_none (vs : List (Option ℚ)) (h : vs.filterMap id = []) :
    sqlAvg vs = none := by
  rw [sqlAvg]
  simp [h]

/-- `sqlAvg` of a column with a nonempty non-null part. -/
theorem sqlAvg_eq_some (vs : List (Option ℚ)) (xs : List ℚ)
    (h : vs.filterMap id = xs) (hne : xs ≠ []) :
    sqlAvg vs = some (xs.sum / (xs.length : ℚ)) := by
  rw [sqlAvg]
  have : xs.length ≠ 0 := fun hc => hne (List.length_eq_zero.mp hc)
  simp [h, this]

/-- The Go scan of a month row built over `sqlSum` recovers the group
sum (a null sum, only possible for an empty group, scans to zero). -/
theorem rowBalance_sqlSum (m : String) (n : Nat) (ac ad : Option ℚ)
    (xs : List ℚ) :
    rowBalance ⟨m, n, ac, ad, sqlSum xs⟩ = xs.sum := by
  by_cases hlen : xs.length = 0
  · have hxs : xs = [] := List.length_eq_zero.mp hlen
    subst hxs
    rfl
  · rw [sqlSum, if_neg hlen]
    rfl

/-- Inversion of a successful month-row computation: every `CASE`
expression of the group evaluates, and the row is built from the group's
columns. -/
theorem monthRowFor_some_inv (g : List DBRecord) (k : Int × Nat)
    (row : SQLMonthRow) (h : monthRowFor g k = some row) :
    (∀ r ∈ g, (creditExpr r.transaction).isSome ∧
      (debitExpr r.transaction).isSome ∧ (balanceExpr r.transaction).isSome) ∧
    row = ⟨monthName k.2, g.length,
      sqlAvg (g.map fun r => (creditExpr r.transaction).getD none),
      sqlAvg (g.map fun r => (debitExpr r.transaction).getD none),
      sqlSum (g.map fun r => (balanceExpr r.transaction).getD 0)⟩ := by
  rw [monthRowFor] at h
  simp only [Option.bind_eq_bind, Option.bind_eq_some, Option.pure_def,
    Option.some.injEq] at h
  obtain ⟨credits, hc, debits, hd, balances, hb, hrow⟩ := h
  obtain ⟨hceq, hcs⟩ := forall2_some_map _ none (optList_eq_some_forall2 _ g credits hc)
  obtain ⟨hdeq, hds⟩ := forall2_some_map _ none (optList_eq_some_forall2 _ g debits hd)
  obtain ⟨hbeq, hbs⟩ := forall2_some_map _ 0 (optList_eq_some_forall2 _ g balances hb)
  refine ⟨fun r hr => ⟨hcs r hr, hds r hr, hbs r hr⟩, ?_⟩
  rw [← hrow, hceq, hdeq, hbeq]

/-- Inversion of a successful query: the result rows correspond pointwise
to the chronologically sorted group keys. -/
theorem runQuery_ok_inv (db : List DBRecord) (email : String)
    (rs : List SQLMonthRow) (h : runQuery db email = .ok rs) :
    List.Forall₂ (fun k row => monthRowFor (groupRows db email k) k = some row)
      (groupKeys db email) rs := by
  rw [runQuery] at h
  split at h
  · cases h
  · rename_i rs2 heq
    cases h
    exact optList_eq_some_forall2 _ _ _ heq

/-- Inversion of a successful summary: it is the scanned query rows with
the accumulated balance. -/
theorem summary_ok_inv (db : List DBRecord) (email : String)
    (s : AccountSummary) (h : getTransactionSummaryByEmail db email = .ok s) :
    ∃ rs, runQuery db email = .ok rs ∧
      s = ⟨email, (rs.map rowBalance).sum, rs.map scanRow⟩ := by
  rw [getTransactionSummaryByEmail] at h
  split at h
  · cases h
  · rename_i rs heq
    cases h
    exact ⟨rs, heq, rfl⟩

/-! ### Partitioning the account's rows by month -/

/-- A filter and its complement split a sum. -/
theorem sum_filter_split {α : Type} (rs : List α) (f : α → ℚ) (p : α → Bool) :
    ((rs.filter p).map f).sum + ((rs.filter fun a => !(p a)).map f).sum =
      (rs.map f).sum := by
  induction rs with
  | nil => simp
  | cons r rest ih =>
    cases hp : p r with
    | true =>
      rw [List.filter_cons_of_pos hp, List.filter_cons_of_neg (by simp [hp])]
      simp only [List.map_cons, List.sum_cons]
      rw [add_assoc, ih]
    | false =>
      rw [List.filter_cons_of_neg (by simp [hp]), List.filter_cons_of_pos (by simp [hp])]
      simp only [List.map_cons, List.sum_cons]
      rw [add_left_comm, ih]

/-- Summing group sums over distinct keys covering all rows recovers the
total sum. -/
theorem sum_over_groups (keys : List (Int × Nat)) :
    ∀ (rs : List DBRecord) (f : DBRecord → ℚ), keys.Nodup →
      (∀ r ∈ rs, dateKey r.date ∈ keys) →
      (keys.map fun k => ((rs.filter fun r => dateKey r.date = k).map f).sum).sum =
        (rs.map f).sum := by
  induction keys with
  | nil =>
    intro rs f _ hcov
    cases rs with
    | nil => simp
    | cons r rest => exact absurd (hcov r (by simp)) (by simp)
  | cons k ks ih =>
    intro rs f hnd hcov
    obtain ⟨hknot, hndks⟩ := List.nodup_cons.mp hnd
    rw [List.map_cons, List.sum_cons]
    have hrest : (ks.map fun j =>
        ((rs.filter fun r => dateKey r.date = j).map f).sum).sum =
        (ks.map fun j =>
          (((rs.filter fun r => !(decide (dateKey r.date = k))).filter
            fun r => dateKey r.date = j).map f).sum).sum := by
      refine congrArg List.sum (List.map_congr_left ?_)
      intro j hj
      have hjk : j ≠ k := fun hc => hknot (hc ▸ hj)
      refine congrArg List.sum (congrArg (List.map f) ?_)
      rw [List.filter_filter]
      refine List.filter_congr ?_
      intro r hr
      by_cases hrj : dateKey r.date = j
      · have hrk : ¬dateKey r.date = k := by rw [hrj]; exact hjk
        simp [hrj, hrk, hjk]
      · simp [hrj]
    rw [hrest, ih (rs.filter fun r => !(decide (dateKey r.date = k))) f hndks ?_]
    · exact sum_filter_split rs f fun r => decide (dateKey r.date = k)
    · intro r hr
      obtain ⟨hrm, hrk⟩ := List.mem_filter.mp hr
      have := hcov r hrm
      simp only [List.mem_cons] at this
      rcases this with heq | hin
      · simp only [Bool.not_eq_eq_eq_not, Bool.not_true, decide_eq_false_iff_not] at hrk
        exact absurd heq hrk
      · exact hin

/-- Every account row's month key is among the group keys. -/
theorem dateKey_mem_groupKeys (db : List DBRecord) (email : String)
    (r : DBRecord) (hr : r ∈ accountRows db email) :
    dateKey r.date ∈ groupKeys db email := by
  rw [groupKeys, mem_sortedKeys]
  exact List.mem_map.mpr ⟨r, hr, rfl⟩

/-- The group keys are exactly the month keys of the account's records. -/
theorem mem_groupKeys_iff (db : List DBRecord) (email : String) (k : Int × Nat) :
    k ∈ groupKeys db email ↔
      ∃ r ∈ db, r.email = email ∧ dateKey r.date = k := by
  rw [groupKeys, mem_sortedKeys]
  constructor
  · intro h
    obtain ⟨r, hr, hk⟩ := List.mem_map.mp h
    obtain ⟨hrdb, hre⟩ := List.mem_filter.mp hr
    exact ⟨r, hrdb, by simpa using hre, hk⟩
  · rintro ⟨r, hrdb, hre, hk⟩
    exact List.mem_map.mpr ⟨r, List.mem_filter.mpr ⟨hrdb, by simpa using hre⟩, hk⟩

/-- Negating each term negates a sum. -/
theorem sum_map_neg {α : Type} (l : List α) (f : α → ℚ) :
    (l.map fun a => -(f a)).sum = -((l.map f).sum) := by
  induction l with
  | nil => simp
  | cons a rest ih =>
    simp only [List.map_cons, List.sum_cons, ih, neg_add]

/-- The scanned averages of a month group: zero when the group has no
rows of that sign, and the mean of the group's signed amounts of that
sign otherwise (so the debit average is the mean of negative numbers). -/
theorem month_avg_spec (g : List DBRecord) (k : Int × Nat) (row : SQLMonthRow)
    (h : monthRowFor g k = some row) :
    (g.filter isCreditRow = [] → (scanRow row).averageCredit = 0) ∧
    (g.filter isCreditRow ≠ [] → (scanRow row).averageCredit =
      ((g.filter isCreditRow).map signedVal).sum /
        (((g.filter isCreditRow)).length : ℚ)) ∧
    (g.filter isDebitRow = [] → (scanRow row).averageDebit = 0) ∧
    (g.filter isDebitRow ≠ [] → (scanRow row).averageDebit =
      ((g.filter isDebitRow).map signedVal).sum /
        (((g.filter isDebitRow)).length : ℚ)) := by
  obtain ⟨hok, hrow⟩ := monthRowFor_some_inv g k row h
  have hbal : ∀ r ∈ g, (balanceExpr r.transaction).isSome :=
    fun r hr => (hok r hr).2.2
  have hcc := credit_column g hbal
  have hdc := debit_column g hbal
  subst hrow
  refine ⟨?_, ?_, ?_, ?_⟩
  · intro hcg
    have hnone : sqlAvg (g.map fun r => (creditExpr r.transaction).getD none) = none :=
      sqlAvg_eq_none _ (by rw [hcc, hcg]; rfl)
    simp [scanRow, hnone]
  · intro hcg
    have hxs : (g.filter isCreditRow).map signedVal ≠ [] := by simpa using hcg
    have hsome := sqlAvg_eq_some _ _ hcc hxs
    simp only [scanRow, hsome]
    rw [List.length_map]
  · intro hdg
    have hnone : sqlAvg (g.map fun r => (debitExpr r.transaction).getD none) = none :=
      sqlAvg_eq_none _ (by rw [hdc, hdg]; rfl)
    simp [scanRow, hnone]
  · intro hdg
    have hxs : (g.filter isDebitRow).map (fun r => -(signedVal r)) ≠ [] := by
      simpa using hdg
    have hsome := sqlAvg_eq_some _ _ hdc hxs
    simp only [scanRow, hsome]
    rw [List.length_map, sum_map_neg, neg_div, neg_neg]

/-! ## Claims -/

/-- Claim C5: for an account whose persisted records are exactly
`[+30.00 in January, -15.00 in January, +20.00 in February]`, summarize
returns `averageCredit(Jan) = 30.00`, `averageDebit(Jan) = -15.00`,
`transactionCount(Jan) = 2`, and `totalBalance = 35.00` (the February
group carrying its own credit average). -/
theorem claim5_worked_example :
    getTransactionSummaryByEmail exampleDB exEmail =
      .ok ⟨exEmail, 35, [⟨("January"), 2, 30, -15⟩, ⟨("February"), 1, 20, 0⟩]⟩ := by
  with_unfolding_all decide

/-- Claim C8: summarize on an account with zero persisted records returns
an `AccountSummary` with `totalBalance = 0` and an empty monthly-summary
sequence, not an error. -/
theorem claim8_empty_account (db : List DBRecord) (email : String)
    (h : ∀ r ∈ db, r.email ≠ email) :
    getTransactionSummaryByEmail db email = .ok ⟨email, 0, []⟩ := by
  have ha : accountRows db email = [] := by
    simp only [accountRows, List.filter_eq_nil_iff]
    intro r hr
    simpa using h r hr
  simp [getTransactionSummaryByEmail, runQuery, groupKeys, ha, sortedKeys, optList]

/-- Witness for claim C8 at a store holding only another account's
record. -/
theorem claim8_witness :
    (∀ r ∈ creditOnlyDB, r.email ≠ ("v@x")) ∧
    getTransactionSummaryByEmail creditOnlyDB ("v@x") = .ok ⟨("v@x"), 0, []⟩ :=
  ⟨by decide, claim8_empty_account creditOnlyDB ("v@x") (by decide)⟩

/-- Claim C9: the orchestrator's per-account loop skips an account whose
summarize call fails and keeps the rest: its output is exactly the
in-order list of summaries of the emails whose summarize call
succeeded. -/
theorem claim9_per_account_isolation (db : List DBRecord) (emails : List String) :
    collectSummaries db emails =
      emails.filterMap (fun e => (getTransactionSummaryByEmail db e).toOption) ∧
    (∀ s, s ∈ collectSummaries db emails ↔
      ∃ e ∈ emails, getTransactionSummaryByEmail db e = .ok s) := by
  have hmain : collectSummaries db emails =
      emails.filterMap (fun e => (getTransactionSummaryByEmail db e).toOption) := by
    induction emails with
    | nil => rfl
    | cons e rest ih =>
      cases hq : getTransactionSummaryByEmail db e with
      | error err => simp [collectSummaries, hq, List.filterMap_cons, Except.toOption, ih]
      | ok s => simp [collectSummaries, hq, List.filterMap_cons, Except.toOption, ih]
  refine ⟨hmain, fun s => ?_⟩
  rw [hmain, List.mem_filterMap]
  constructor
  · rintro ⟨e, he, hsome⟩
    exact ⟨e, he, (except_toOption_eq_some _ _).mp hsome⟩
  · rintro ⟨e, he, hok⟩
    exact ⟨e, he, by rw [hok]; rfl⟩

/-- Claim C6: a CSV whose header cannot be read or whose header column
count is not 4 makes the run fail with a `SchemaError`, with the store
untouched (the failure precedes the database transaction). -/
theorem claim6_schema_error (db : List TxRecord) (input : CSVStream)
    (h : input.header = .readErr ∨
      ∃ hs, input.header = .fields hs ∧ hs.length ≠ 4) :
    ∃ e : SchemaError, runFile db input = (db, .error (.schema e)) := by
  rcases h with hh | ⟨hs, hh, hlen⟩
  · exact ⟨.headerRead, by simp [runFile, processCSVFile, hh]⟩
  · exact ⟨.headerColumns hs.length, by simp [runFile, processCSVFile, hh, hlen]⟩

/-- Witness for claim C6 at a stream with a three-column header. -/
theorem claim6_witness :
    (wBadHeader.header = .readErr ∨
      ∃ hs, wBadHeader.header = .fields hs ∧ hs.length ≠ 4) ∧
    ∃ e : SchemaError, runFile wStore wBadHeader = (wStore, .error (.schema e)) :=
  ⟨Or.inr ⟨[("id"), ("date"), ("email")], rfl, by decide⟩,
   claim6_schema_error wStore wBadHeader
     (Or.inr ⟨[("id"), ("date"), ("email")], rfl, by decide⟩)⟩

/-- Claim C2: persistence is atomic. For a batch of validated (4-field)
rows: if every row's external id parses, the whole batch is committed
(appended to the store) and the distinct emails are returned; if row `j`
is the first whose id does not parse, the transaction rolls back — the
store is unchanged — and the returned error names the 1-based row
number `j + 1`. -/
theorem claim2_persist_atomic (db : List TxRecord) (rows : List (List String))
    (hval : ∀ row ∈ rows, row.length = 4) :
    ((∀ row ∈ rows, (atoi (row.headD default)).isSome) →
      persist db rows = (db ++ committedRecords rows, .ok (emailsOf rows))) ∧
    (∀ j, j < rows.length →
      atoi ((rows.getD j []).headD default) = none →
      (∀ x, x < j → (atoi ((rows.getD x []).headD default)).isSome) →
      persist db rows = (db, .error (.invalidExternalID (j + 1)))) := by
  constructor
  · intro hids
    have h : ∀ row ∈ rows, ∃ a b c d n, row = [a, b, c, d] ∧ atoi a = some n := by
      intro row hr
      obtain ⟨a, b, c, d, hrow⟩ := length_eq_four row (hval row hr)
      subst hrow
      obtain ⟨n, hn⟩ := Option.isSome_iff_exists.mp (by simpa using hids _ hr)
      exact ⟨a, b, c, d, n, rfl, hn⟩
    rw [persist, insertTransactions, insertTransactionsAux_ok rows 0 [] [] h]
    simp [emailsOf]
  · intro j hj hbad hpre
    have hpre' : ∀ x, x < j → ∃ a b c d n, rows.getD x [] = [a, b, c, d] ∧ atoi a = some n := by
      intro x hx
      have hxr : rows.getD x [] ∈ rows := by
        rw [List.getD_eq_getElem rows [] (hx.trans hj)]
        exact List.getElem_mem (hx.trans hj)
      obtain ⟨a, b, c, d, hrow⟩ := length_eq_four _ (hval _ hxr)
      obtain ⟨n, hn⟩ := Option.isSome_iff_exists.mp (hpre x hx)
      rw [hrow] at hn ⊢
      simp only [List.headD_cons] at hn
      exact ⟨a, b, c, d, n, rfl, hn⟩
    rw [persist, insertTransactions,
      insertTransactionsAux_badId rows 0 j [] [] hj hpre' hval hbad]
    simp

/-- Witness for claim C2: a fully valid two-row batch commits both rows,
and a batch whose second row has the id `x2` rolls back, leaving the
store unchanged and reporting row 2. -/
theorem claim2_witness :
    ((∀ row ∈ wRows, row.length = 4) ∧
      persist wStore wRows = (wStore ++ committedRecords wRows, .ok (emailsOf wRows))) ∧
    ((∀ row ∈ wBadIdRows, row.length = 4) ∧
      persist wStore wBadIdRows = (wStore, .error (.invalidExternalID 2))) :=
  ⟨⟨by decide, (claim2_persist_atomic wStore wRows (by decide)).1 (by decide)⟩,
   ⟨by decide, (claim2_persist_atomic wStore wBadIdRows (by decide)).2 1 (by decide)
      (by decide) (by decide)⟩⟩

/-- Claim C10: `insertTransactions` re-checks the field count. If row `j`
(0-based) of the batch does not have exactly 4 fields, the insert can
never succeed and the store is left unchanged by `persist` (rollback);
and when the rows before `j` are valid, the returned error is
`invalidColumnCount` naming the 1-based row number `j + 1`, raised
before that row is inserted. -/
theorem claim10_insert_column_recheck (db : List TxRecord)
    (rows : List (List String)) (j : Nat) (hj : j < rows.length)
    (hbad : (rows.getD j []).length ≠ 4) :
    (∃ e, insertTransactions rows = .error e) ∧
    (persist db rows).1 = db ∧
    ((∀ x, x < j → ∃ a b c d n, rows.getD x [] = [a, b, c, d] ∧ atoi a = some n) →
      persist db rows =
        (db, .error (.invalidColumnCount (j + 1) (rows.getD j []).length))) := by
  have hex : ∃ e, insertTransactions rows = .error e := by
    refine insertTransactionsAux_badCols_isError rows 0 [] [] ⟨rows.getD j [], ?_, hbad⟩
    rw [List.getD_eq_getElem rows [] hj]
    exact List.getElem_mem hj
  obtain ⟨e, he⟩ := hex
  refine ⟨⟨e, he⟩, by rw [persist, he], ?_⟩
  intro hpre
  rw [persist, insertTransactions,
    insertTransactionsAux_badCols rows 0 j [] [] hj hpre hbad]
  simp

/-- Witness for claim C10 at a batch whose second row has five fields:
the insert errors, the store is unchanged, and the error names row 2
with the count 5. -/
theorem claim10_witness :
    (1 < wBadColsRows.length ∧ (wBadColsRows.getD 1 []).length ≠ 4) ∧
    (∃ e, insertTransactions wBadColsRows = .error e) ∧
    (persist wStore wBadColsRows).1 = wStore ∧
    ((∀ x, x < 1 → ∃ a b c d n, wBadColsRows.getD x [] = [a, b, c, d] ∧ atoi a = some n) →
      persist wStore wBadColsRows =
        (wStore, .error (.invalidColumnCount 2 (wBadColsRows.getD 1 []).length))) :=
  ⟨⟨by decide, by decide⟩,
   claim10_insert_column_recheck wStore wBadColsRows 1 (by decide) (by decide)⟩

/-- Claim C7: with a well-formed 4-column header, the validator returns
exactly the in-order subsequence of 4-field rows (read errors and rows
with a wrong field count are skipped, the rest of the file is still
processed), and after a successful run every valid row with a parseable
integer id is present in the store, while every newly stored record
comes from some 4-field line of the file. -/
theorem claim7_row_skip_and_persist (db : List TxRecord) (input : CSVStream)
    (hs : List String) (hhdr : input.header = .fields hs) (hlen : hs.length = 4) :
    processCSVFile input =
      .ok ((readRecords input.lines).filter fun r => r.length = 4) ∧
    ((readRecords input.lines).filter fun r => r.length = 4).Sublist
      (readRecords input.lines) ∧
    ∀ db2 emails, runFile db input = (db2, .ok emails) →
      (∀ a b c d, CSVLine.fields [a, b, c, d] ∈ input.lines →
        ∀ n, atoi a = some n → (⟨n, b, c, d⟩ : TxRecord) ∈ db2) ∧
      (∀ rec ∈ db2, rec ∈ db ∨
        ∃ a b c d, CSVLine.fields [a, b, c, d] ∈ input.lines ∧
          atoi a = some rec.external_id ∧ b = rec.date ∧
          c = rec.transaction ∧ d = rec.email) := by
  have hproc := processCSVFile_ok input hs hhdr hlen
  refine ⟨hproc, List.filter_sublist _, ?_⟩
  intro db2 emails h
  obtain ⟨rows, hrows, hpersist⟩ := runFile_ok_inv db input db2 emails h
  rw [hproc] at hrows
  have hrows' : rows = (readRecords input.lines).filter fun r => r.length = 4 :=
    (Except.ok.inj hrows).symm
  have hdb2 := persist_ok_inv db rows db2 emails hpersist
  constructor
  · intro a b c d hline n hn
    have hmemr : [a, b, c, d] ∈ rows := by
      rw [hrows']
      refine List.mem_filter.mpr ⟨(mem_readRecords_iff input.lines _).mpr hline, by simp⟩
    rw [hdb2]
    exact List.mem_append_right db (mem_committedRecords rows a b c d n hmemr hn)
  · intro rec hrec
    rw [hdb2] at hrec
    rcases List.mem_append.mp hrec with hin | hin
    · exact Or.inl hin
    · obtain ⟨a, b, c, d, hmemr, hid, hb, hc, hd⟩ :=
        committedRecords_mem_inv rows rec hin
      refine Or.inr ⟨a, b, c, d, ?_, hid, hb, hc, hd⟩
      rw [hrows'] at hmemr
      exact (mem_readRecords_iff input.lines _).mp (List.mem_filter.mp hmemr).1

/-- Witness for claim C7 at a stream with a valid header, one valid row,
a read error, a two-field row, and another valid row. -/
theorem claim7_witness :
    (wGoodStream.header =
        .fields [("id"), ("date"), ("transaction"), ("email")] ∧
      ([("id"), ("date"), ("transaction"), ("email")] : List String).length = 4) ∧
    (processCSVFile wGoodStream =
      .ok ((readRecords wGoodStream.lines).filter fun r => r.length = 4) ∧
    ((readRecords wGoodStream.lines).filter fun r => r.length = 4).Sublist
      (readRecords wGoodStream.lines) ∧
    ∀ db2 emails, runFile wStore wGoodStream = (db2, .ok emails) →
      (∀ a b c d, CSVLine.fields [a, b, c, d] ∈ wGoodStream.lines →
        ∀ n, atoi a = some n → (⟨n, b, c, d⟩ : TxRecord) ∈ db2) ∧
      (∀ rec ∈ db2, rec ∈ wStore ∨
        ∃ a b c d, CSVLine.fields [a, b, c, d] ∈ wGoodStream.lines ∧
          atoi a = some rec.external_id ∧ b = rec.date ∧
          c = rec.transaction ∧ d = rec.email)) :=
  ⟨⟨rfl, by decide⟩,
   claim7_row_skip_and_persist wStore wGoodStream
     [("id"), ("date"), ("transaction"), ("email")] rfl (by decide)⟩

/-- Counterexample to claim C3 as stated about the program's returned
value: for the store `[+0.10 January, +0.20 February]` the `float64`
accumulation performed by the scan returns
`0.1f64 + 0.2f64 = 5404319552844596 / 2^54` (`0.30000000000000004…`),
which is not the exact sum `3/10` of the account's signed amounts — the
two summation paths do not reconcile exactly once the per-month
subtotals pass through `float64`. -/
theorem claim3_counterexample :
    totalBalanceFloat roundDB exEmail =
      some (mkRat 5404319552844596 18014398509481984) ∧
    ((accountRows roundDB exEmail).map signedVal).sum = mkRat 3 10 ∧
    totalBalanceFloat roundDB exEmail ≠
      some (((accountRows roundDB exEmail).map signedVal).sum) := by
  have hq : runQuery roundDB exEmail = .ok
      [⟨("January"), 1, some (mkRat 1 10), none, some (mkRat 1 10)⟩,
       ⟨("February"), 1, some (mkRat 1 5), none, some (mkRat 1 5)⟩] := by
    with_unfolding_all decide
  have hsum : ((accountRows roundDB exEmail).map signedVal).sum = mkRat 3 10 := by
    with_unfolding_all decide
  have h1 : roundDouble (mkRat 1 10) = mkRat 3602879701896397 36028797018963968 := by
    decide
  have h2 : roundDouble (mkRat 1 5) = mkRat 3602879701896397 18014398509481984 := by
    decide
  have h0 : roundDouble ((0 : ℚ) + mkRat 3602879701896397 36028797018963968) =
      mkRat 3602879701896397 36028797018963968 := by
    rw [zero_add]
    decide
  have hadd : (mkRat 3602879701896397 36028797018963968 : ℚ) +
      mkRat 3602879701896397 18014398509481984 =
      mkRat 10808639105689191 36028797018963968 := by
    rw [Rat.mkRat_eq_div, Rat.mkRat_eq_div, Rat.mkRat_eq_div]
    norm_num
  have h3 : roundDouble (mkRat 10808639105689191 36028797018963968) =
      mkRat 5404319552844596 18014398509481984 := by
    decide
  have hne : (mkRat 5404319552844596 18014398509481984 : ℚ) ≠ mkRat 3 10 := by
    decide
  have hmain : totalBalanceFloat roundDB exEmail =
      some (mkRat 5404319552844596 18014398509481984) := by
    rw [totalBalanceFloat, hq]
    simp only [List.map_cons, List.map_nil, List.foldl_cons, List.foldl_nil,
      rowBalance]
    rw [h1, h2, h0, hadd, h3]
  refine ⟨hmain, hsum, ?_⟩
  rw [hmain, hsum]
  simp only [ne_eq, Option.some.injEq]
  exact hne

/-- Claim C3 as amended: over the exact `NUMERIC` arithmetic of the SQL
query the two summation paths do reconcile — the summary's exact total
is both the sum of every signed amount of the account and the sum of the
per-month balance subtotals — while the `totalBalance` the program
actually returns is the binary64 accumulation of the rounded per-month
subtotals, which need not equal the exact sum. -/
theorem claim3_amended_total_balance (db : List DBRecord) (email : String)
    (s : AccountSummary) (h : getTransactionSummaryByEmail db email = .ok s) :
    s.totalBalance = ((accountRows db email).map signedVal).sum ∧
    s.totalBalance = ((groupKeys db email).map fun k =>
      ((groupRows db email k).map signedVal).sum).sum ∧
    totalBalanceFloat db email =
      some (((groupKeys db email).map fun k =>
        roundDouble (((groupRows db email k).map signedVal).sum)).foldl
        (fun acc b => roundDouble (acc + b)) 0) := by
  obtain ⟨rs, hq, hs⟩ := summary_ok_inv db email s h
  have hf := runQuery_ok_inv db email rs hq
  have h2 : (rs.map rowBalance).sum = ((groupKeys db email).map fun k =>
      ((groupRows db email k).map signedVal).sum).sum := by
    refine forall2_sum_eq rowBalance _ (hf.imp ?_)
    intro k row hrow
    obtain ⟨-, hroweq⟩ := monthRowFor_some_inv _ _ _ hrow
    rw [hroweq]
    exact rowBalance_sqlSum _ _ _ _ _
  have h3 : ((groupKeys db email).map fun k =>
      ((groupRows db email k).map signedVal).sum).sum =
      ((accountRows db email).map signedVal).sum := by
    simp only [groupRows]
    refine sum_over_groups (groupKeys db email) (accountRows db email) signedVal
      ?_ (fun r hr => dateKey_mem_groupKeys db email r hr)
    rw [groupKeys]
    exact sortedKeys_nodup _
  have hT : totalBalanceFloat db email =
      some (((groupKeys db email).map fun k =>
        roundDouble (((groupRows db email k).map signedVal).sum)).foldl
        (fun acc b => roundDouble (acc + b)) 0) := by
    rw [totalBalanceFloat, hq]
    dsimp only
    congr 2
    refine forall2_map_eq _ _ (hf.imp ?_)
    intro k row hrow
    obtain ⟨-, hroweq⟩ := monthRowFor_some_inv _ _ _ hrow
    rw [hroweq]
    exact congrArg roundDouble (rowBalance_sqlSum _ _ _ _ _)
  rw [hs]
  exact ⟨h2.trans h3, h2, hT⟩

/-- Witness for the amended claim C3 at the worked example: both exact
summation paths give 35, and the returned `float64` total is the rounded
accumulation of the per-month subtotals. -/
theorem claim3_witness :
    getTransactionSummaryByEmail exampleDB exEmail = .ok exampleSummary ∧
    (exampleSummary.totalBalance =
        ((accountRows exampleDB exEmail).map signedVal).sum ∧
      exampleSummary.totalBalance = ((groupKeys exampleDB exEmail).map fun k =>
        ((groupRows exampleDB exEmail k).map signedVal).sum).sum ∧
      totalBalanceFloat exampleDB exEmail =
        some (((groupKeys exampleDB exEmail).map fun k =>
          roundDouble (((groupRows exampleDB exEmail k).map signedVal).sum)).foldl
          (fun acc b => roundDouble (acc + b)) 0)) :=
  ⟨by with_unfolding_all decide,
   claim3_amended_total_balance exampleDB exEmail exampleSummary
     (by with_unfolding_all decide)⟩

/-- Claim C4: a successful summary groups the account's records by
(year, month) — the group keys are exactly the month keys of the
account's records, without duplicates, so same-named months of
different years stay separate — in chronological order, and each entry
is labelled with the month name only and counts its group's records. -/
theorem claim4_month_grouping (db : List DBRecord) (email : String)
    (s : AccountSummary) (h : getTransactionSummaryByEmail db email = .ok s) :
    ∃ keys : List (Int × Nat),
      (∀ k, k ∈ keys ↔ ∃ r ∈ db, r.email = email ∧ dateKey r.date = k) ∧
      keys.Nodup ∧
      List.Chain' keyLt keys ∧
      List.Forall₂ (fun k m => m.month = monthName k.2 ∧
        m.transactionCount = (groupRows db email k).length)
        keys s.monthlySummaries := by
  obtain ⟨rs, hq, hs⟩ := summary_ok_inv db email s h
  have hf := runQuery_ok_inv db email rs hq
  refine ⟨groupKeys db email, mem_groupKeys_iff db email, ?_, ?_, ?_⟩
  · rw [groupKeys]
    exact sortedKeys_nodup _
  · rw [groupKeys]
    exact (sortedKeys_pairwise _).chain'
  · rw [hs]
    dsimp only
    refine forall2_map_right _ scanRow (hf.imp ?_)
    intro k row hrow
    obtain ⟨-, hroweq⟩ := monthRowFor_some_inv _ _ _ hrow
    subst hroweq
    exact ⟨rfl, rfl⟩

/-- Witness for claim C4 at a store with records in January 2023 and
January 2024: two separate chronologically ordered January entries. -/
theorem claim4_witness :
    getTransactionSummaryByEmail twoYearDB exEmail = .ok twoYearSummary ∧
    ∃ keys : List (Int × Nat),
      (∀ k, k ∈ keys ↔ ∃ r ∈ twoYearDB, r.email = exEmail ∧ dateKey r.date = k) ∧
      keys.Nodup ∧
      List.Chain' keyLt keys ∧
      List.Forall₂ (fun k m => m.month = monthName k.2 ∧
        m.transactionCount = (groupRows twoYearDB exEmail k).length)
        keys twoYearSummary.monthlySummaries :=
  ⟨by with_unfolding_all decide,
   claim4_month_grouping twoYearDB exEmail twoYearSummary
     (by with_unfolding_all decide)⟩

/-- Counterexample to claim C1 as stated: in the returned
`AccountSummary` the averages are plain numbers, never null. For a store
whose only January record is the credit `+30.00`, the January group has
zero debit rows, the SQL-level debit average is indeed `NULL`, yet the
summary's `averageDebit` is the number `0` — and an account whose only
record is the debit `-0.00` produces the very same output as one whose
record is the unsigned `0.00`, so null is not distinguished from zero. -/
theorem claim1_counterexample :
    creditOnlyDB.filter isDebitRow = [] ∧
    runQuery creditOnlyDB exEmail =
      .ok [⟨("January"), 1, some 30, none, some 30⟩] ∧
    getTransactionSummaryByEmail creditOnlyDB exEmail =
      .ok ⟨exEmail, 30, [⟨("January"), 1, 30, 0⟩]⟩ ∧
    zeroNoDebitDB.filter isDebitRow = [] ∧
    zeroDebitDB.filter isDebitRow ≠ [] ∧
    getTransactionSummaryByEmail zeroNoDebitDB exEmail =
      getTransactionSummaryByEmail zeroDebitDB exEmail := by
  with_unfolding_all decide

/-- Claim C1 as amended: in a successful summary, for each month group
(in order): a group with zero credit rows has `averageCredit = 0` (the
SQL `NULL` is materialized as zero, not kept as null); when credits
exist, `averageCredit` is the mean of the positive amounts; a group with
zero debit rows has `averageDebit = 0`; when debits exist,
`averageDebit` is the mean of the signed (negative) debit amounts. -/
theorem claim1_amended_averages (db : List DBRecord) (email : String)
    (s : AccountSummary) (h : getTransactionSummaryByEmail db email = .ok s) :
    List.Forall₂ (fun k m =>
      ((groupRows db email k).filter isCreditRow = [] → m.averageCredit = 0) ∧
      ((groupRows db email k).filter isCreditRow ≠ [] → m.averageCredit =
        (((groupRows db email k).filter isCreditRow).map signedVal).sum /
          ((((groupRows db email k).filter isCreditRow)).length : ℚ)) ∧
      ((groupRows db email k).filter isDebitRow = [] → m.averageDebit = 0) ∧
      ((groupRows db email k).filter isDebitRow ≠ [] → m.averageDebit =
        (((groupRows db email k).filter isDebitRow).map signedVal).sum /
          ((((groupRows db email k).filter isDebitRow)).length : ℚ)))
      (groupKeys db email) s.monthlySummaries := by
  obtain ⟨rs, hq, hs⟩ := summary_ok_inv db email s h
  have hf := runQuery_ok_inv db email rs hq
  rw [hs]
  dsimp only
  refine forall2_map_right _ scanRow (hf.imp ?_)
  intro k row hrow
  exact month_avg_spec _ k row hrow

/-- Witness for the amended claim C1 at the worked example. -/
theorem claim1_witness :
    getTransactionSummaryByEmail exampleDB exEmail = .ok exampleSummary ∧
    List.Forall₂ (fun k m =>
      ((groupRows exampleDB exEmail k).filter isCreditRow = [] →
        m.averageCredit = 0) ∧
      ((groupRows exampleDB exEmail k).filter isCreditRow ≠ [] →
        m.averageCredit =
        (((groupRows exampleDB exEmail k).filter isCreditRow).map signedVal).sum /
          ((((groupRows exampleDB exEmail k).filter isCreditRow)).length : ℚ)) ∧
      ((groupRows exampleDB exEmail k).filter isDebitRow = [] →
        m.averageDebit = 0) ∧
      ((groupRows exampleDB exEmail k).filter isDebitRow ≠ [] →
        m.averageDebit =
        (((groupRows exampleDB exEmail k).filter isDebitRow).map signedVal).sum /
          ((((groupRows exampleDB exEmail k).filter isDebitRow)).length : ℚ)))
      (groupKeys exampleDB exEmail) exampleSummary.monthlySummaries :=
  ⟨by with_unfolding_all decide,
   claim1_amended_averages exampleDB exEmail exampleSummary
     (by with_unfolding_all decide)⟩

end Summarizer
